import Mathlib

/-!
Verification development for `pymc3/theanof.py`: a shallow embedding of the
module's data model (symbolic tensor expressions, variables, the generator
op's stream state) and of its operations, with theorems about the behaviour
of `gradient`, `jacobian`, `hessian`, `hessian_diag`, `join_nonshared_inputs`,
`make_shared_replacements`, `CallableTensor` and `GeneratorOp`.

External graph primitives (theano's `grad`, `map`, `concatenate`, ...) are
modelled as opaque constructors of the expression AST: their internal graph
structure is external to this repository and no property proved here depends
on it.  Numeric array elements are modelled as integers plus a distinguished
not-a-number marker (the only floating-point feature the code observes).
-/

namespace Theanof

/-- Element of a numeric array: an exact number or the not-a-number marker
used by `GeneratorOp` as the exhaustion sentinel. -/
inductive FElem where
  | num (z : Int)
  | nan
deriving DecidableEq

/-- Numeric dtypes that appear in the module (`'float32'` is the fixed
fallback dtype of `empty_gradient`). -/
inductive Dtype where
  | float32
  | float64
  | int32
  | int64
deriving DecidableEq

/-- Continuous (floating) dtypes, standing for `continuous_types` from
`vartypes`. -/
def continuousDtype : Dtype → Bool
  | Dtype.float32 => true
  | Dtype.float64 => true
  | Dtype.int32 => false
  | Dtype.int64 => false

/-- A concrete numpy-style array: a shape, a dtype and the flat list of
elements (row-major). -/
structure NDArray where
  shape : List Nat
  dtype : Dtype
  data : List FElem
deriving DecidableEq

/-- A theano tensor variable: graph-node identity is the `id` field;
`name` may collide across distinct nodes.  `testValue` models
`var.tag.test_value`, the concrete current value the module reads. -/
structure Var where
  id : Nat
  name : String
  dtype : Dtype
  testValue : NDArray
deriving DecidableEq

/-- Symbolic tensor expressions: the fragment of the theano graph language
that `theanof.py` constructs.  `grad1`, `jac1` and `hdiag1` stand for the
whole externally-built derivative subgraphs returned by `gradient1`,
`jacobian1` and `hessian_diag1` (flatten-of-grad, and the two `theano.map`
loops); their internals are external graph primitives. -/
inductive Expr where
  | var (v : Var)
  | zeros (n : Nat) (dtype : Dtype)
  | neg (e : Expr)
  | grad1 (f : Expr) (v : Var)
  | jac1 (f : Expr) (v : Var)
  | hdiag1 (f : Expr) (v : Var)
  | concat (axis : Nat) (es : List Expr)
  | ravel (e : Expr)
  | subtensor (e : Expr) (lo hi : Nat)
  | index0 (e : Expr)
  | reshape (e : Expr) (shape : List Nat)
  | astype (e : Expr) (d : Dtype)
  | add (a b : Expr)
  | mul (a b : Expr)

mutual

/-- All variable leaves of an expression, with repetitions, in
left-to-right discovery order (the traversal order of `theano.gof.graph.inputs`).
The variable a derivative subgraph was taken with respect to is itself an
input of that subgraph. -/
def inputList : Expr → List Var
  | Expr.var v => [v]
  | Expr.zeros _ _ => []
  | Expr.neg e => inputList e
  | Expr.grad1 f v => inputList f ++ [v]
  | Expr.jac1 f v => inputList f ++ [v]
  | Expr.hdiag1 f v => inputList f ++ [v]
  | Expr.concat _ es => inputListL es
  | Expr.ravel e => inputList e
  | Expr.subtensor e _ _ => inputList e
  | Expr.index0 e => inputList e
  | Expr.reshape e _ => inputList e
  | Expr.astype e _ => inputList e
  | Expr.add a b => inputList a ++ inputList b
  | Expr.mul a b => inputList a ++ inputList b

/-- `inputList` over a list of expressions. -/
def inputListL : List Expr → List Var
  | [] => []
  | e :: es => inputList e ++ inputListL es

end

/-- Deduplication keeping the first occurrence, with an accumulator of
already-seen elements (the seen-set of a graph traversal). -/
def firstDedupAux {α : Type} [DecidableEq α] (seen : List α) : List α → List α
  | [] => []
  | x :: xs =>
    if x ∈ seen then firstDedupAux seen xs
    else x :: firstDedupAux (x :: seen) xs

/-- Deduplication keeping the first occurrence. -/
def firstDedup {α : Type} [DecidableEq α] (l : List α) : List α :=
  firstDedupAux [] l

/-- `inputvars(a)`: the distinct tensor-variable leaves feeding `a`. -/
def inputvars (a : Expr) : List Var :=
  firstDedup (inputList a)

/-- `cont_inputs(f)`: `typefilter(inputvars(f), continuous_types)`. -/
def cont_inputs (f : Expr) : List Var :=
  (inputvars f).filter (fun v => continuousDtype v.dtype)

/-- `gradient1(f, v)`: `tt.flatten(tt.grad(f, v, disconnected_inputs='warn'))`,
an external derivative subgraph modelled atomically. -/
def gradient1 (f : Expr) (v : Var) : Expr :=
  Expr.grad1 f v

/-- `empty_gradient = tt.zeros(0, dtype='float32')`. -/
def empty_gradient : Expr :=
  Expr.zeros 0 Dtype.float32

/-- The `if vars is None: vars = cont_inputs(f)` default-resolution step
shared by the four derivative operations. -/
def resolveVars (f : Expr) : Option (List Var) → List Var
  | none => cont_inputs f
  | some vs => vs

/-- `gradient(f, vars)`. -/
def gradient (f : Expr) (vars : Option (List Var)) : Expr :=
  let vs := resolveVars f vars
  if vs.isEmpty then empty_gradient
  else Expr.concat 0 (vs.map (fun v => gradient1 f v))

/-- `jacobian1(f, v)`: flatten `f`, build the index range, and `theano.map`
the per-index flat gradient — an external graph subprogram modelled
atomically. -/
def jacobian1 (f : Expr) (v : Var) : Expr :=
  Expr.jac1 f v

/-- `jacobian(f, vars)`. -/
def jacobian (f : Expr) (vars : Option (List Var)) : Expr :=
  let vs := resolveVars f vars
  if vs.isEmpty then empty_gradient
  else Expr.concat 1 (vs.map (fun v => jacobian1 f v))

/-- `hessian(f, vars) = -jacobian(gradient(f, vars), vars)`. -/
def hessian (f : Expr) (vars : Option (List Var)) : Expr :=
  Expr.neg (jacobian (gradient f vars) vars)

/-- `hessian_diag1(f, v)`: the `theano.map` over diagonal second
derivatives, an external graph subprogram modelled atomically. -/
def hessian_diag1 (f : Expr) (v : Var) : Expr :=
  Expr.hdiag1 f v

/-- `hessian_diag(f, vars)`. -/
def hessian_diag (f : Expr) (vars : Option (List Var)) : Expr :=
  let vs := resolveVars f vars
  if vs.isEmpty then empty_gradient
  else Expr.neg (Expr.concat 0 (vs.map (fun v => hessian_diag1 f v)))

/-- Static shape of an expression, where the graph fixes it: `tt.zeros(n)`
is a vector of length `n`, and elementwise negation preserves shape. -/
def eshape : Expr → Option (List Nat)
  | Expr.zeros n _ => some [n]
  | Expr.neg e => eshape e
  | _ => none

/-- Static dtype of an expression, where the graph fixes it. -/
def edtype : Expr → Option Dtype
  | Expr.zeros _ d => some d
  | Expr.neg e => edtype e
  | Expr.astype _ d => some d
  | _ => none

/-- Insert a binding into a Python-style dict (association list): an
existing key keeps its position and gets the new value; a fresh key is
appended at the end (dict insertion order). -/
def dinsert {κ α : Type} [DecidableEq κ] (k : κ) (v : α) :
    List (κ × α) → List (κ × α)
  | [] => [(k, v)]
  | p :: rest => if p.1 = k then (k, v) :: rest else p :: dinsert k v rest

/-- Build a Python dict from a comprehension's key-value pairs, inserting
left to right (later pairs with the same key overwrite earlier ones). -/
def dictOf {κ α : Type} [DecidableEq κ] (l : List (κ × α)) : List (κ × α) :=
  l.foldl (fun d p => dinsert p.1 p.2 d) []

/-- Dict lookup. -/
def alookup {κ α : Type} [DecidableEq κ] (k : κ) :
    List (κ × α) → Option α
  | [] => none
  | p :: rest => if p.1 = k then some p.2 else alookup k rest

mutual

/-- `theano.clone(x, replace, strict=False)`: substitute every occurrence
of each mapped variable node; a mapped node absent from the expression is a
no-op. -/
def clone (repl : List (Var × Expr)) : Expr → Expr
  | Expr.var v =>
    match alookup v repl with
    | some r => r
    | none => Expr.var v
  | Expr.zeros n d => Expr.zeros n d
  | Expr.neg e => Expr.neg (clone repl e)
  | Expr.grad1 f v => Expr.grad1 (clone repl f) v
  | Expr.jac1 f v => Expr.jac1 (clone repl f) v
  | Expr.hdiag1 f v => Expr.hdiag1 (clone repl f) v
  | Expr.concat a es => Expr.concat a (cloneL repl es)
  | Expr.ravel e => Expr.ravel (clone repl e)
  | Expr.subtensor e lo hi => Expr.subtensor (clone repl e) lo hi
  | Expr.index0 e => Expr.index0 (clone repl e)
  | Expr.reshape e s => Expr.reshape (clone repl e) s
  | Expr.astype e d => Expr.astype (clone repl e) d
  | Expr.add a b => Expr.add (clone repl a) (clone repl b)
  | Expr.mul a b => Expr.mul (clone repl a) (clone repl b)

/-- `clone` over a list of expressions. -/
def cloneL (repl : List (Var × Expr)) : List Expr → List Expr
  | [] => []
  | e :: es => clone repl e :: cloneL repl es

end

/-- Number of elements of an array of the given shape. -/
def sizeOfShape (s : List Nat) : Nat :=
  s.prod

/-- One row of `ArrayOrdering.vmap`: the variable's name, its
`(start, stop)` slice of the flat vector, its native shape and its dtype. -/
structure VEntry where
  name : String
  slc : Nat × Nat
  shp : List Nat
  dtyp : Dtype
deriving DecidableEq

/-- Modelled from the spec: `ArrayOrdering` (from `blocking.py`, not under
`src/`) assigns each variable, in list order, a contiguous slice of the flat
vector starting where the previous one stopped, recording its name, native
shape and dtype; slices partition `[0, total)` and each has length equal to
the variable's element count.  `vmapAux off vars` is its `vmap` list
starting at offset `off`. -/
def vmapAux (off : Nat) : List Var → List VEntry
  | [] => []
  | v :: vs =>
    ⟨v.name, (off, off + sizeOfShape v.testValue.shape), v.testValue.shape, v.dtype⟩ ::
      vmapAux (off + sizeOfShape v.testValue.shape) vs

/-- `ArrayOrdering(vars).vmap`. -/
def orderingVmap (vars : List Var) : List VEntry :=
  vmapAux 0 vars

/-- `reshape_t(x, shape)`: work around the fact that `x.reshape(())`
does not work — a zero-dimensional target takes element `[0]` instead. -/
def reshape_t (x : Expr) (shape : List Nat) : Expr :=
  if shape ≠ [] then Expr.reshape x shape else Expr.index0 x

/-- The replacement expression `reshape_t(inarray[slc], shp).astype(dtyp)`
built from one `vmap` row. -/
def replExpr (inarray : Expr) (e : VEntry) : Expr :=
  Expr.astype (reshape_t (Expr.subtensor inarray e.slc.1 e.slc.2) e.shp) e.dtyp

/-- `get_var = {var.name: var for var in vars}`: the name-keyed variable
dict of `join_nonshared_inputs` (later variables overwrite earlier ones that
share a name). -/
def get_var (vars : List Var) : List (String × Var) :=
  dictOf (vars.map (fun v => (v.name, v)))

/-- The `replace` dict of `join_nonshared_inputs`:
`{get_var[var]: reshape_t(inarray[slc], shp).astype(dtyp) for var, slc, shp, dtyp in ordering.vmap}`.
Keys are looked up through the name-keyed `get_var` dict. -/
def joinReplace (inarray : Expr) (vars : List Var) : List (Var × Expr) :=
  dictOf ((orderingVmap vars).filterMap
    (fun e => (alookup e.name (get_var vars)).map (fun v => (v, replExpr inarray e))))

/-- `joined.tag.test_value`: the concatenation of the raveled test values
of `vars` (a flat vector; dtype by promotion of the inputs, irrelevant to
the properties proved here). -/
def joinedTestValue (vars : List Var) : NDArray :=
  { shape := [(vars.map (fun v => sizeOfShape v.testValue.shape)).sum],
    dtype := ((vars.head?.map (fun v => v.dtype)).getD Dtype.float32),
    data := vars.flatMap (fun v => v.testValue.data) }

/-- The `inarray` variable of `join_nonshared_inputs`: a fresh flat vector
variable (plain symbolic in the default mode, a shared one when
`make_shared` — storage management that is not observable in this
embedding), whose test value is seeded with `joined.tag.test_value`. -/
def inarrayVar (vars : List Var) : Var :=
  { id := 0, name := "inarray",
    dtype := ((vars.head?.map (fun v => v.dtype)).getD Dtype.float32),
    testValue := joinedTestValue vars }

/-- `join_nonshared_inputs(xs, vars, shared, make_shared)`: build the flat
input, the per-variable `replace` dict (through the name-keyed `get_var`),
merge in `shared`, and clone each expression. -/
def join_nonshared_inputs (xs : List Expr) (vars : List Var)
    (shared : List (Var × Expr)) (make_shared : Bool) : List Expr × Expr :=
  let inarray := Expr.var (inarrayVar vars)
  let replace := joinReplace inarray vars
  let replace := shared.foldl (fun d p => dinsert p.1 p.2 d) replace
  let xs_special := xs.map (fun x => clone replace x)
  (xs_special, inarray)

/-- Two distinct variable nodes that share the name `"x"`: node ids 1 and 2,
native shapes `(2,)` and `(3,)`. -/
def x1 : Var :=
  ⟨1, "x", Dtype.float64, ⟨[2], Dtype.float64, [FElem.num 0, FElem.num 0]⟩⟩

/-- Second variable node named `"x"` (id 2, shape `(3,)`). -/
def x2 : Var :=
  ⟨2, "x", Dtype.float64,
    ⟨[3], Dtype.float64, [FElem.num 0, FElem.num 0, FElem.num 0]⟩⟩

/-- The `inarray` node `join_nonshared_inputs` builds for `vars = [x1, x2]`. -/
def ia0 : Expr :=
  Expr.var (inarrayVar [x1, x2])

/-- C3: with `vars = [x1, x2]` — two distinct variable nodes both named
`"x"` — the name-keyed `get_var` dict collapses both onto `x2`, so `x1`
receives no replacement at all (the expression `x1` is returned unrewritten,
still a free input, contrary to the docstring "same tensors but with inarray
as input") and `x2` receives the last slice; variables are not mapped by
graph-node identity. -/
theorem join_nonshared_name_collision :
    (join_nonshared_inputs [Expr.var x1] [x1, x2] [] false).1 = [Expr.var x1] ∧
    alookup x1 (joinReplace ia0 [x1, x2]) = none ∧
    alookup x2 (joinReplace ia0 [x1, x2]) =
      some (replExpr ia0 ⟨"x", (2, 5), [3], Dtype.float64⟩) :=
  ⟨rfl, rfl, rfl⟩

/-- `dinsert` with a key absent from the dict appends the binding. -/
theorem dinsert_append {κ α : Type} [DecidableEq κ] (k : κ) (v : α)
    (d : List (κ × α)) (h : ∀ p ∈ d, p.1 ≠ k) :
    dinsert k v d = d ++ [(k, v)] := by
  induction d with
  | nil => rfl
  | cons p rest ih =>
    have hk : p.1 ≠ k := h p (List.mem_cons_self p rest)
    simp only [dinsert, if_neg hk, List.cons_append, List.cons.injEq, true_and]
    exact ih (fun q hq => h q (List.mem_cons_of_mem p hq))

/-- Folding dict insertion over pairs with globally distinct keys appends
them in order. -/
theorem dictOf_go {κ α : Type} [DecidableEq κ] (l : List (κ × α)) :
    ∀ d : List (κ × α), ((d ++ l).map Prod.fst).Nodup →
      List.foldl (fun d p => dinsert p.1 p.2 d) d l = d ++ l := by
  induction l with
  | nil => intro d _; simp
  | cons p rest ih =>
    intro d h
    have hfresh : ∀ q ∈ d, q.1 ≠ p.1 := by
      intro q hq he
      have h2 := h
      simp only [List.map_append, List.nodup_append] at h2
      exact h2.2.2 (List.mem_map_of_mem Prod.fst hq) (by simp [he])
    have e1 : dinsert p.1 p.2 d = d ++ [(p.1, p.2)] := dinsert_append _ _ _ hfresh
    have e2 : d ++ [(p.1, p.2)] = d ++ [p] := by simp
    have h3 : (((d ++ [p]) ++ rest).map Prod.fst).Nodup := by
      simpa [List.append_assoc] using h
    calc List.foldl (fun d q => dinsert q.1 q.2 d) d (p :: rest)
        = List.foldl (fun d q => dinsert q.1 q.2 d) (d ++ [p]) rest := by
          simp [List.foldl_cons, e1, e2]
      _ = (d ++ [p]) ++ rest := ih (d ++ [p]) h3
      _ = d ++ p :: rest := by simp

/-- A pair list with distinct keys is its own dict. -/
theorem dictOf_eq_self {κ α : Type} [DecidableEq κ] (l : List (κ × α))
    (h : (l.map Prod.fst).Nodup) : dictOf l = l := by
  simpa using dictOf_go l [] (by simpa using h)

/-- Looking a name up in the name-pair list of `vars` finds the variable,
provided the names are distinct. -/
theorem alookup_map_name (vars : List Var) (h : (vars.map Var.name).Nodup)
    (v : Var) (hv : v ∈ vars) :
    alookup v.name (vars.map (fun w => (w.name, w))) = some v := by
  induction vars with
  | nil => cases hv
  | cons w ws ih =>
    simp only [List.map_cons, List.nodup_cons] at h
    rcases List.mem_cons.mp hv with he | hm
    · subst he
      simp [alookup]
    · have hne : w.name ≠ v.name := by
        intro hc
        exact h.1 (hc ▸ List.mem_map_of_mem Var.name hm)
      simp only [List.map_cons, alookup, if_neg hne]
      exact ih h.2 hm

/-- With distinct names, `get_var` is just the name-pair list of `vars`. -/
theorem get_var_eq (vars : List Var) (h : (vars.map Var.name).Nodup) :
    get_var vars = vars.map (fun v => (v.name, v)) := by
  unfold get_var
  apply dictOf_eq_self
  simpa [List.map_map, Function.comp] using h

/-- The per-variable replacement list the `replace` comprehension produces
when every name lookup succeeds on its own variable. -/
def replList (ia : Expr) (off : Nat) : List Var → List (Var × Expr)
  | [] => []
  | v :: vs =>
    (v, replExpr ia ⟨v.name, (off, off + sizeOfShape v.testValue.shape),
        v.testValue.shape, v.dtype⟩) ::
      replList ia (off + sizeOfShape v.testValue.shape) vs

/-- When each variable's name looks up to itself, the `vmap` comprehension
body produces exactly the per-variable replacement list. -/
theorem filterMap_vmap (ia : Expr) (gv : List (String × Var)) :
    ∀ (vs : List Var) (off : Nat), (∀ v ∈ vs, alookup v.name gv = some v) →
      (vmapAux off vs).filterMap
          (fun e => (alookup e.name gv).map (fun v => (v, replExpr ia e))) =
        replList ia off vs := by
  intro vs
  induction vs with
  | nil => intro off _; rfl
  | cons v vs ih =>
    intro off h
    have hv : alookup v.name gv = some v := h v (List.mem_cons_self v vs)
    simp only [vmapAux, List.filterMap_cons, hv, Option.map_some, replList]
    exact congrArg _ (ih _ (fun w hw => h w (List.mem_cons_of_mem v hw)))

/-- The keys of the per-variable replacement list are the variables. -/
theorem replList_keys (ia : Expr) :
    ∀ (vs : List Var) (off : Nat), (replList ia off vs).map Prod.fst = vs := by
  intro vs
  induction vs with
  | nil => intro off; rfl
  | cons v vs ih => intro off; simp [replList, ih]

/-- Flat-vector offset assigned to the first occurrence of `v` in `vars`
(the start of its slice in the ordering). -/
def offsetOf : List Var → Var → Nat
  | [], _ => 0
  | w :: ws, v =>
    if w = v then 0 else sizeOfShape w.testValue.shape + offsetOf ws v

/-- Looking a variable up in the per-variable replacement list yields its
own slice. -/
theorem alookup_replList (ia : Expr) :
    ∀ (vs : List Var), ∀ v ∈ vs, ∀ off : Nat,
      alookup v (replList ia off vs) =
        some (replExpr ia ⟨v.name,
          (off + offsetOf vs v,
            off + offsetOf vs v + sizeOfShape v.testValue.shape),
          v.testValue.shape, v.dtype⟩) := by
  intro vs
  induction vs with
  | nil => intro v hv; cases hv
  | cons w ws ih =>
    intro v hv off
    by_cases he : w = v
    · subst he
      simp [replList, alookup, offsetOf]
    · have hm : v ∈ ws := by
        rcases List.mem_cons.mp hv with h1 | h1
        · exact absurd h1.symm he
        · exact h1
      have step := ih v hm (off + sizeOfShape w.testValue.shape)
      simp only [replList, alookup, if_neg he, offsetOf, if_neg he]
      rw [step]
      ring_nf

/-- C4: with pairwise-distinct variable names (so that the name-keyed
lookup is faithful), the replacement `join_nonshared_inputs` builds for
every `v` in `vars` is the slice of the flat input reshaped to `v`'s native
shape and cast to `v`'s dtype — except that a zero-dimensional native shape
takes element `[0]` of the slice instead of a zero-dimension reshape. -/
theorem joinReplace_slice_reshape_cast (ia : Expr) (vars : List Var)
    (h : (vars.map Var.name).Nodup) :
    ∀ v ∈ vars, alookup v (joinReplace ia vars) =
      some (Expr.astype
        (if v.testValue.shape = []
          then Expr.index0 (Expr.subtensor ia (offsetOf vars v)
                (offsetOf vars v + sizeOfShape v.testValue.shape))
          else Expr.reshape (Expr.subtensor ia (offsetOf vars v)
                (offsetOf vars v + sizeOfShape v.testValue.shape))
              v.testValue.shape)
        v.dtype) := by
  intro v hv
  have hg : get_var vars = vars.map (fun w => (w.name, w)) := get_var_eq vars h
  have hl : ∀ w ∈ vars, alookup w.name (get_var vars) = some w := by
    intro w hw
    rw [hg]
    exact alookup_map_name vars h w hw
  have hnd : vars.Nodup := List.Nodup.of_map Var.name h
  unfold joinReplace orderingVmap
  rw [filterMap_vmap ia (get_var vars) vars 0 hl]
  rw [dictOf_eq_self _ (by rw [replList_keys]; exact hnd)]
  have step := alookup_replList ia vars v hv 0
  rw [step]
  by_cases hsh : v.testValue.shape = [] <;>
    simp [replExpr, reshape_t, hsh]

/-- A scalar variable (native shape `()`), for the C4 witness. -/
def va : Var := ⟨11, "a", Dtype.float64, ⟨[], Dtype.float64, [FElem.num 5]⟩⟩

/-- A shape-`(2,)` variable, for the C4 witness. -/
def vb : Var :=
  ⟨12, "b", Dtype.float32, ⟨[2], Dtype.float32, [FElem.num 1, FElem.num 2]⟩⟩

/-- A stand-in flat input expression, for the C4 witness. -/
def iaW : Expr :=
  Expr.var ⟨13, "w", Dtype.float64, ⟨[3], Dtype.float64, []⟩⟩

/-- C4 witness: at `vars = [va, vb]` (a scalar and a vector, distinct
names), the scalar's replacement takes element `[0]` of its length-1 slice
and the vector's replacement is a genuine reshape. -/
theorem joinReplace_slice_reshape_cast_witness :
    alookup va (joinReplace iaW [va, vb]) =
      some (Expr.astype (Expr.index0 (Expr.subtensor iaW 0 1)) Dtype.float64) ∧
    alookup vb (joinReplace iaW [va, vb]) =
      some (Expr.astype (Expr.reshape (Expr.subtensor iaW 1 3) [2])
        Dtype.float32) := by
  constructor
  · have h := joinReplace_slice_reshape_cast iaW [va, vb] (by decide) va
      (List.mem_cons_self va [vb])
    simpa [va, vb, offsetOf, sizeOfShape] using h
  · have h := joinReplace_slice_reshape_cast iaW [va, vb] (by decide) vb
      (by simp)
    simpa [va, vb, offsetOf, sizeOfShape] using h

/-- A theano shared variable: a constant-holding placeholder with its own
allocation identity, the value it was seeded with, and its name. -/
structure SharedVar where
  id : Nat
  value : NDArray
  name : String
deriving DecidableEq

/-- Modelled from the spec: a model (from `model.py`, not under `src/`)
exposes its full variable list `model.vars`. -/
structure Model where
  vars : List Var

/-- The body of `make_shared_replacements`, iterating over the other
variables and allocating one fresh shared placeholder per variable
(`theano.shared(var.tag.test_value, var.name + '_shared')`), threading the
allocator state `st` (each allocation is brand new). -/
def msrAux : Nat → List Var → List (Var × SharedVar) × Nat
  | st, [] => ([], st)
  | st, v :: vs =>
    let s : SharedVar := ⟨st, v.testValue, v.name ++ "_shared"⟩
    let rest := msrAux (st + 1) vs
    ((v, s) :: rest.1, rest.2)

/-- `make_shared_replacements(vars, model)`:
`othervars = set(model.vars) - set(vars)`, then a dict mapping every other
variable to a freshly allocated shared placeholder seeded with its current
value. -/
def make_shared_replacements (st : Nat) (vars : List Var) (model : Model) :
    List (Var × SharedVar) × Nat :=
  let othervars := firstDedup (model.vars.filter (fun v => decide (v ∉ vars)))
  msrAux st othervars

/-- Keys of `msrAux` are exactly the iterated variables. -/
theorem msrAux_keys (st : Nat) (l : List Var) :
    ((msrAux st l).1).map Prod.fst = l := by
  induction l generalizing st with
  | nil => rfl
  | cons v vs ih => simp [msrAux, ih]

/-- Each binding of `msrAux` is seeded with the variable's current value
and suffixed name, and its allocation id lies in `[st, st + len)`. -/
theorem msrAux_mem (st : Nat) (l : List Var) (v : Var) (s : SharedVar)
    (h : (v, s) ∈ (msrAux st l).1) :
    s.value = v.testValue ∧ s.name = v.name ++ "_shared" ∧
      st ≤ s.id ∧ s.id < st + l.length := by
  induction l generalizing st with
  | nil => cases h
  | cons w ws ih =>
    simp only [msrAux, List.mem_cons] at h
    rcases h with he | hm
    · have hv : v = w := congrArg Prod.fst he
      have hs : s = ⟨st, w.testValue, w.name ++ "_shared"⟩ :=
        congrArg Prod.snd he
      subst hv
      subst hs
      refine ⟨rfl, rfl, le_refl _, ?_⟩
      simp only [List.length_cons]
      omega
    · have h2 := ih (st + 1) hm
      refine ⟨h2.1, h2.2.1, by omega, ?_⟩
      simp only [List.length_cons]
      omega

/-- `msrAux` returns the allocator advanced by the number of bindings. -/
theorem msrAux_counter (st : Nat) (l : List Var) :
    (msrAux st l).2 = st + l.length := by
  induction l generalizing st with
  | nil => rfl
  | cons v vs ih =>
    simp only [msrAux, ih, List.length_cons]
    omega

/-- Membership in `firstDedupAux`. -/
theorem mem_firstDedupAux {α : Type} [DecidableEq α] (a : α) :
    ∀ (l seen : List α), a ∈ firstDedupAux seen l ↔ a ∈ l ∧ a ∉ seen := by
  intro l
  induction l with
  | nil => intro seen; simp [firstDedupAux]
  | cons x xs ih =>
    intro seen
    by_cases hx : x ∈ seen
    · simp only [firstDedupAux, if_pos hx]
      rw [ih seen]
      constructor
      · rintro ⟨h1, h2⟩
        exact ⟨List.mem_cons_of_mem x h1, h2⟩
      · rintro ⟨h1, h2⟩
        rcases List.mem_cons.mp h1 with he | hm
        · exact absurd (he ▸ hx) h2
        · exact ⟨hm, h2⟩
    · simp only [firstDedupAux, if_neg hx]
      constructor
      · intro hm
        rcases List.mem_cons.mp hm with he | hm2
        · exact ⟨List.mem_cons.mpr (Or.inl he), he ▸ hx⟩
        · have h3 := (ih (x :: seen)).mp hm2
          refine ⟨List.mem_cons.mpr (Or.inr h3.1), ?_⟩
          intro hc
          exact h3.2 (List.mem_cons_of_mem x hc)
      · rintro ⟨h1, h2⟩
        rcases List.mem_cons.mp h1 with he | hm2
        · exact List.mem_cons.mpr (Or.inl he)
        · by_cases hax : a = x
          · exact List.mem_cons.mpr (Or.inl hax)
          · refine List.mem_cons.mpr
              (Or.inr ((ih (x :: seen)).mpr ⟨hm2, ?_⟩))
            intro hc
            rcases List.mem_cons.mp hc with he2 | hs2
            · exact hax he2
            · exact h2 hs2

/-- Membership in `firstDedup`. -/
theorem mem_firstDedup {α : Type} [DecidableEq α] (a : α) (l : List α) :
    a ∈ firstDedup l ↔ a ∈ l := by
  simp [firstDedup, mem_firstDedupAux]

/-- C9: the mapping returned by `make_shared_replacements` has as keys
exactly the model's variables minus `vars`; every binding holds a
placeholder seeded with that variable's current value (name suffixed with
`'_shared'`); and a second call made after the first (the allocator state
threaded through) shares no placeholder with the first — every call
allocates brand-new placeholders. -/
theorem make_shared_replacements_spec (st : Nat) (vars : List Var)
    (model : Model) :
    (∀ v : Var,
        (∃ s, (v, s) ∈ (make_shared_replacements st vars model).1) ↔
          (v ∈ model.vars ∧ v ∉ vars)) ∧
    (∀ v s, (v, s) ∈ (make_shared_replacements st vars model).1 →
        s.value = v.testValue ∧ s.name = v.name ++ "_shared") ∧
    (∀ vars2 model2 v1 s1 v2 s2,
        (v1, s1) ∈ (make_shared_replacements st vars model).1 →
        (v2, s2) ∈ (make_shared_replacements
            (make_shared_replacements st vars model).2 vars2 model2).1 →
        s1 ≠ s2) := by
  simp only [make_shared_replacements]
  refine ⟨?_, ?_, ?_⟩
  · intro v
    constructor
    · rintro ⟨s, hs⟩
      have hk := List.mem_map_of_mem Prod.fst hs
      rw [msrAux_keys] at hk
      rw [mem_firstDedup] at hk
      simpa using List.mem_filter.mp hk
    · rintro ⟨h1, h2⟩
      have hk : v ∈ firstDedup
          (model.vars.filter (fun v => decide (v ∉ vars))) := by
        rw [mem_firstDedup]
        exact List.mem_filter.mpr ⟨h1, by simpa using h2⟩
      have hm : v ∈ ((msrAux st (firstDedup
          (model.vars.filter (fun v => decide (v ∉ vars))))).1).map Prod.fst := by
        rw [msrAux_keys]
        exact hk
      rcases List.mem_map.mp hm with ⟨p, hp, hpe⟩
      refine ⟨p.2, ?_⟩
      rw [← hpe]
      exact hp
  · intro v s hs
    have hb := msrAux_mem st _ v s hs
    exact ⟨hb.1, hb.2.1⟩
  · intro vars2 model2 v1 s1 v2 s2 h1 h2
    have b1 := (msrAux_mem _ _ v1 s1 h1).2.2.2
    have b2 := (msrAux_mem _ _ v2 s2 h2).2.2.1
    rw [msrAux_counter] at b2
    intro he
    have hid : s1.id = s2.id := congrArg SharedVar.id he
    omega

/-- A model with two variables, for the C9 witness. -/
def model0 : Model := ⟨[va, vb]⟩

/-- C9 witness: at `model0 = {vars := [va, vb]}` and `vars = [va]`, the
variable `vb` (and only it) receives a placeholder, it is seeded with
`vb`'s current value, and a second call reuses none of the first call's
placeholders. -/
theorem make_shared_replacements_spec_witness :
    (∃ s, (vb, s) ∈ (make_shared_replacements 0 [va] model0).1) ∧
    (¬ ∃ s, (va, s) ∈ (make_shared_replacements 0 [va] model0).1) ∧
    (∀ s1 s2, (vb, s1) ∈ (make_shared_replacements 0 [va] model0).1 →
      (vb, s2) ∈ (make_shared_replacements
          (make_shared_replacements 0 [va] model0).2 [va] model0).1 →
      s1 ≠ s2) := by
  refine ⟨?_, ?_, ?_⟩
  · exact ((make_shared_replacements_spec 0 [va] model0).1 vb).mpr (by decide)
  · intro hc
    have := ((make_shared_replacements_spec 0 [va] model0).1 va).mp hc
    revert this
    decide
  · intro s1 s2 h1 h2
    exact (make_shared_replacements_spec 0 [va] model0).2.2 [va] model0
      vb s1 vb s2 h1 h2

/-- `CallableTensor`: wraps a symbolic expression with one free input. -/
structure CallableTensor where
  tensor : Expr

/-- `CallableTensor.__call__(input)`: unpack the single input variable of
the wrapped expression (`oldinput, = inputvars(self.tensor)` — a hard
unpacking error unless there is exactly one) and clone with it replaced by
`input`. -/
def CallableTensor.call (t : CallableTensor) (input : Expr) :
    Except String Expr :=
  match inputvars t.tensor with
  | [oldinput] => Except.ok (clone [(oldinput, input)] t.tensor)
  | _ => Except.error "expected exactly one input variable"

/-- Whether an `Except` result is a success. -/
def exceptOk {ε α : Type} : Except ε α → Bool
  | Except.ok _ => true
  | Except.error _ => false

/-- C8: calling a `CallableTensor` succeeds — returning the wrapped
expression with its single free input variable substituted by the given
value — exactly when the wrapped expression has exactly one free input
variable; with zero or several free inputs the call is a hard error. -/
theorem callable_tensor_single_input (t : CallableTensor) (input : Expr) :
    (exceptOk (t.call input) = true ↔ (inputvars t.tensor).length = 1) ∧
    (∀ v, inputvars t.tensor = [v] →
        t.call input = Except.ok (clone [(v, input)] t.tensor)) ∧
    ((inputvars t.tensor).length ≠ 1 →
        ∃ msg, t.call input = Except.error msg) := by
  unfold CallableTensor.call
  rcases hiv : inputvars t.tensor with _ | ⟨v, _ | ⟨w, rest⟩⟩
  · refine ⟨by simp [exceptOk], ?_, ?_⟩
    · intro u hu
      simp at hu
    · intro _
      exact ⟨_, rfl⟩
  · refine ⟨by simp [exceptOk], ?_, ?_⟩
    · intro u hu
      injection hu with h1 _
      subst h1
      rfl
    · intro hlen
      simp at hlen
  · refine ⟨by simp [exceptOk], ?_, ?_⟩
    · intro u hu
      simp at hu
    · intro _
      exact ⟨_, rfl⟩

/-- The wrapped expression of the C8 witness: `va * va + zeros(3)` has the
single free input `va`. -/
def ct0 : CallableTensor :=
  ⟨Expr.add (Expr.mul (Expr.var va) (Expr.var va)) (Expr.zeros 3 Dtype.float32)⟩

/-- A wrapped expression with two free inputs, for the C8 witness. -/
def ct2 : CallableTensor :=
  ⟨Expr.add (Expr.var va) (Expr.var vb)⟩

/-- C8 witness: the single-input wrapper `ct0` substitutes its one free
variable, and the two-input wrapper `ct2` fails hard. -/
theorem callable_tensor_single_input_witness :
    ct0.call (Expr.zeros 1 Dtype.float32) =
      Except.ok (clone [(va, Expr.zeros 1 Dtype.float32)] ct0.tensor) ∧
    ∃ msg, ct2.call (Expr.zeros 1 Dtype.float32) = Except.error msg := by
  constructor
  · exact (callable_tensor_single_input ct0 (Expr.zeros 1 Dtype.float32)).2.1
      va rfl
  · exact (callable_tensor_single_input ct2 (Expr.zeros 1 Dtype.float32)).2.2
      (by decide)

/-- A declared tensor type: shape plus dtype (the output contract of a
stream source). -/
structure TType where
  dtype : Dtype
  shape : List Nat
deriving DecidableEq

/-- The declared tensor type of a concrete array. -/
def ttypeOf (v : NDArray) : TType :=
  ⟨v.dtype, v.shape⟩

/-- Modelled from the spec: `DataGenerator` (from `data.py`, not under
`src/`) adapts an iterator into a typed, shape-stable source: it yields one
array per next request (signalling exhaustion when the sequence ends) and
exposes a fixed output tensor type and one concrete sample value usable
before any real data is requested. -/
structure DataGenerator where
  items : List NDArray
  test_value : NDArray
deriving DecidableEq

/-- The fixed declared output tensor type of a source: the shape and dtype
of its sample value. -/
def DataGenerator.tensortype (g : DataGenerator) : TType :=
  ttypeOf g.test_value

/-- Modelled from the spec: wrapping a plain finite iterator as a
`DataGenerator`; the sample value is the first element (usable without
advancing the real data). -/
def DataGenerator.ofIter (l : List NDArray) : DataGenerator :=
  { items := l, test_value := l.headD ⟨[], Dtype.float32, []⟩ }

/-- Argument accepted where a generator is expected: either an
already-wrapped `DataGenerator` or a plain iterator. -/
inductive GenArg where
  | wrapped (g : DataGenerator)
  | iter (l : List NDArray)

/-- `if not isinstance(gen, DataGenerator): gen = DataGenerator(gen)`. -/
def wrapGen : GenArg → DataGenerator
  | GenArg.wrapped g => g
  | GenArg.iter l => DataGenerator.ofIter l

/-- An array of the same shape, dtype and element count as `v`, filled with
the not-a-number marker: `self._nan = np.zeros_like(test_value); self._nan[...] = np.nan`. -/
def nanLike (v : NDArray) : NDArray :=
  { shape := v.shape, dtype := v.dtype,
    data := List.replicate v.data.length FElem.nan }

/-- The state of a `GeneratorOp`: its current source, its declared input
and output type lists, and the exhaustion sentinel computed once at
construction. -/
structure GeneratorOp where
  generator : DataGenerator
  itypes : List TType
  otypes : List TType
  nanVal : NDArray
deriving DecidableEq

/-- `GeneratorOp.__init__(gen)`: wrap a non-`DataGenerator` argument, store
it, declare no inputs and one output of the source's tensor type, and
precompute the nan sentinel from the source's sample value. -/
def mkGeneratorOp (gen : GenArg) : GeneratorOp :=
  let gen := wrapGen gen
  { generator := gen, itypes := [], otypes := [gen.tensortype],
    nanVal := nanLike gen.test_value }

/-- `GeneratorOp.perform`: one graph evaluation — take the next element of
the source; on `StopIteration`, output the nan sentinel instead (the source
stays exhausted). -/
def GeneratorOp.perform (op : GeneratorOp) : NDArray × GeneratorOp :=
  match op.generator.items with
  | [] => (op.nanVal, op)
  | x :: rest => (x, { op with generator := { op.generator with items := rest } })

/-- `GeneratorOp.do_constant_folding`: always `False` — the node's output
differs on every evaluation. -/
def GeneratorOp.do_constant_folding (_op : GeneratorOp) : Bool :=
  false

/-- `GeneratorOp.set_gen(gen)`: wrap a non-`DataGenerator` argument; if its
declared tensor type differs from the current source's, raise a
`ValueError` before any mutation (the prior source is kept); otherwise
store the new source. -/
def GeneratorOp.set_gen (op : GeneratorOp) (gen : GenArg) :
    GeneratorOp × Option String :=
  let gen := wrapGen gen
  if gen.tensortype = op.generator.tensortype then
    ({ op with generator := gen }, none)
  else
    (op, some "New generator should yield the same type")

/-- A graph node (apply result) produced by calling an op: its declared
type and its preview (`tag.test_value`). -/
structure TensorNode where
  ttype : TType
  test_value : Option NDArray
deriving DecidableEq

/-- The external `Op.__call__` machinery: builds the output node, and —
when test-value computation is on — previews the output by actually running
`perform`, which would advance the source.  `GeneratorOp.__call__` runs it
under `change_flags(compute_test_value='off')`. -/
def opCallSuper (computeTestValue : Bool) (op : GeneratorOp) :
    TensorNode × GeneratorOp :=
  if computeTestValue then
    let r := op.perform
    ({ ttype := op.otypes.headD ⟨Dtype.float32, []⟩, test_value := some r.1 }, r.2)
  else
    ({ ttype := op.otypes.headD ⟨Dtype.float32, []⟩, test_value := none }, op)

/-- `GeneratorOp.__call__`: run the superclass call with test-value
computation switched off, then set the node's preview to the statically
held sample value of the source. -/
def GeneratorOp.callOp (op : GeneratorOp) : TensorNode × GeneratorOp :=
  let r := opCallSuper false op
  ({ r.1 with test_value := some r.2.generator.test_value }, r.2)

/-- `generator(gen)`: shortcut for `GeneratorOp(gen)()`. -/
def generatorShortcut (gen : GenArg) : TensorNode × GeneratorOp :=
  (mkGeneratorOp gen).callOp

/-- Iterated graph evaluations of the op, returning the outputs in order
and the final op state. -/
def performN (op : GeneratorOp) : Nat → List NDArray × GeneratorOp
  | 0 => ([], op)
  | n + 1 =>
    let r := op.perform
    let rest := performN r.2 n
    (r.1 :: rest.1, rest.2)

/-- After exhaustion, every further evaluation yields the sentinel. -/
theorem performN_exhausted (op : GeneratorOp) (h : op.generator.items = []) :
    ∀ m : Nat, (performN op m).1 = List.replicate m op.nanVal := by
  intro m
  induction m with
  | zero => rfl
  | succ n ih =>
    have hp : op.perform = (op.nanVal, op) := by
      unfold GeneratorOp.perform
      split
      · rfl
      · rename_i x rest hx
        rw [h] at hx
        cases hx
    simp [performN, hp, ih, List.replicate_succ]

/-- Running `items.length + m` evaluations yields the items in order, then
`m` sentinels. -/
theorem performN_run (l : List NDArray) :
    ∀ (op : GeneratorOp), op.generator.items = l → ∀ m : Nat,
      (performN op (l.length + m)).1 = l ++ List.replicate m op.nanVal := by
  induction l with
  | nil =>
    intro op h m
    simpa using performN_exhausted op h m
  | cons x rest ih =>
    intro op h m
    have hp : op.perform =
        (x, { op with generator := { op.generator with items := rest } }) := by
      unfold GeneratorOp.perform
      split
      · rename_i hx
        rw [h] at hx
        cases hx
      · rename_i y ys hx
        rw [h] at hx
        cases hx
        rfl
    have hlen : (x :: rest).length + m = (rest.length + m) + 1 := by
      simp [List.length_cons]
      omega
    rw [hlen]
    simp only [performN, hp]
    rw [ih { op with generator := { op.generator with items := rest } } rfl m]
    simp

/-- C5: a stream bridge over a finite source of `k` elements yields, across
`k + m` evaluations, exactly the source's elements in order followed by `m`
sentinel arrays; the sentinel has the sample value's shape and dtype and is
filled with the not-a-number marker — exhaustion is sustained, never a
crash. -/
theorem generator_stream_exhaustion (g : GenArg) (m : Nat) :
    (performN (mkGeneratorOp g) ((wrapGen g).items.length + m)).1 =
      (wrapGen g).items ++
        List.replicate m (nanLike (wrapGen g).test_value) ∧
    (nanLike (wrapGen g).test_value).shape = (wrapGen g).test_value.shape ∧
    (nanLike (wrapGen g).test_value).data =
      List.replicate (wrapGen g).test_value.data.length FElem.nan := by
  refine ⟨?_, rfl, rfl⟩
  exact performN_run (wrapGen g).items (mkGeneratorOp g) rfl m

/-- C6: rebinding a bridge to a source whose declared tensor type differs
from the current one's fails with the type-mismatch `ValueError` and leaves
the prior source (indeed the whole op state) unchanged; rebinding with an
identical type replaces the source and reports no error. -/
theorem set_gen_type_check (op : GeneratorOp) (g : GenArg) :
    ((wrapGen g).tensortype ≠ op.generator.tensortype →
        op.set_gen g = (op, some "New generator should yield the same type")) ∧
    ((wrapGen g).tensortype = op.generator.tensortype →
        op.set_gen g = ({ op with generator := wrapGen g }, none)) := by
  constructor
  · intro h
    simp [GeneratorOp.set_gen, h]
  · intro h
    simp [GeneratorOp.set_gen, h]

/-- A one-element stream of shape-`(2,)` arrays, for the C6 witness. -/
def dgA : DataGenerator :=
  { items := [⟨[2], Dtype.float32, [FElem.num 1, FElem.num 2]⟩],
    test_value := ⟨[2], Dtype.float32, [FElem.num 1, FElem.num 2]⟩ }

/-- A stream of shape-`(3,)` arrays (a different declared type), for the
C6 witness. -/
def dgB : DataGenerator :=
  { items := [⟨[3], Dtype.float32, [FElem.num 1, FElem.num 2, FElem.num 3]⟩],
    test_value := ⟨[3], Dtype.float32, [FElem.num 1, FElem.num 2, FElem.num 3]⟩ }

/-- C6 witness: rebinding the bridge over `dgA` to the differently-shaped
`dgB` errors and keeps the old op state; rebinding to `dgA` again
succeeds. -/
theorem set_gen_type_check_witness :
    (mkGeneratorOp (GenArg.wrapped dgA)).set_gen (GenArg.wrapped dgB) =
      (mkGeneratorOp (GenArg.wrapped dgA),
        some "New generator should yield the same type") ∧
    (mkGeneratorOp (GenArg.wrapped dgA)).set_gen (GenArg.wrapped dgA) =
      ({ mkGeneratorOp (GenArg.wrapped dgA) with generator := dgA }, none) := by
  constructor
  · exact (set_gen_type_check (mkGeneratorOp (GenArg.wrapped dgA))
      (GenArg.wrapped dgB)).1 (by decide)
  · exact (set_gen_type_check (mkGeneratorOp (GenArg.wrapped dgA))
      (GenArg.wrapped dgA)).2 (by decide)

/-- C7: building the graph node (the op call, with its test-value preview)
leaves the op — in particular the source's cursor — unchanged, and the
node's preview is the statically held sample value, not a freshly drawn
element. -/
theorem generator_call_no_advance (op : GeneratorOp) :
    (op.callOp).2 = op ∧
    (op.callOp).1.test_value = some op.generator.test_value ∧
    (generatorShortcut (GenArg.wrapped op.generator)).2.generator =
      op.generator := by
  exact ⟨rfl, rfl, rfl⟩

/-- C10: both the constructor and `set_gen` wrap any non-`DataGenerator`
argument before storing it, so construction and the rebind type check
always operate on the (possibly freshly wrapped) `DataGenerator`. -/
theorem generator_wraps_plain_iter (g : GenArg) (op : GeneratorOp) :
    mkGeneratorOp g = mkGeneratorOp (GenArg.wrapped (wrapGen g)) ∧
    op.set_gen g = op.set_gen (GenArg.wrapped (wrapGen g)) ∧
    (mkGeneratorOp g).generator = wrapGen g := by
  cases g with
  | wrapped d => exact ⟨rfl, rfl, rfl⟩
  | iter l => exact ⟨rfl, rfl, rfl⟩

/-- C1: for every expression `f` and every variable list `vars`,
`hessian(f, vars)` is exactly the negation of
`jacobian(gradient(f, vars), vars)` — the observed-information sign
convention. -/
theorem hessian_is_neg_jacobian_of_gradient (f : Expr) (vars : List Var) :
    hessian f (some vars) =
      Expr.neg (jacobian (gradient f (some vars)) (some vars)) := rfl

/-- C2 (amended): with `vars = []`, `gradient`, `jacobian` and
`hessian_diag` each return `empty_gradient`, the length-zero vector of the
fixed fallback dtype `'float32'`; `hessian` returns the negation of
`empty_gradient`, which is still a one-dimensional length-zero vector (shape
`(0,)`), not a zero-by-zero matrix. -/
theorem derivative_ops_empty_vars (f : Expr) :
    gradient f (some []) = empty_gradient ∧
    jacobian f (some []) = empty_gradient ∧
    hessian_diag f (some []) = empty_gradient ∧
    hessian f (some []) = Expr.neg empty_gradient ∧
    eshape empty_gradient = some [0] ∧
    edtype empty_gradient = some Dtype.float32 ∧
    eshape (hessian f (some [])) = some [0] ∧
    edtype (hessian f (some [])) = some Dtype.float32 :=
  ⟨rfl, rfl, rfl, rfl, rfl, rfl, rfl, rfl⟩

/-- A concrete expression used as a counterexample input: a single
float64 variable of shape `(2,)`. -/
def f0 : Expr :=
  Expr.var ⟨1, "v", Dtype.float64, ⟨[2], Dtype.float64, [FElem.num 1, FElem.num 2]⟩⟩

/-- C2 counterexample: at `f = f0` and `vars = []`, the result of `hessian`
has static shape `(0,)` — one dimension with zero elements — and not the
shape `(0, 0)` a zero-by-zero matrix would have. -/
theorem hessian_empty_not_zero_by_zero :
    eshape (hessian f0 (some [])) = some [0] ∧
    eshape (hessian f0 (some [])) ≠ some [0, 0] :=
  ⟨rfl, by decide⟩

end Theanof
